import Mathlib

/- Verification development for zfp_make_test_data.cpp: a shallow embedding of
   the raw-volume file-name matcher, the raw-volume loader, the procedural
   volume generators, and the main compression pipeline, together with theorems
   settling the specification claims about them.

   Conventions of the embedding:
   - C++ strings are modelled as List Char (the file names are ASCII).
   - Raw file contents are modelled as List Nat, one entry per byte (< 256).
   - The float voxel grid is modelled exactly over the rationals: uint8/uint16
     widening to float is exact for values below 2^24, and the float32 path
     stores the exact rational value denoted by the 32-bit pattern read.
   - Byte order for multi-byte raw elements is native-endian in the source;
     it is modelled as little-endian (the byte order of the x86-64/aarch64
     targets this tool runs on).
   - The external zfp codec is out of scope (spec section 6); the pipeline model
     takes the codec's achieved-rate response as an oracle function. -/

namespace Zfp

/-- Shorthand turning a string literal into the List Char the model works on. -/
def str (s : String) : List Char := s.data

/-- Character class of the ECMAScript regex escape for word characters,
    as used by std::regex with the default flavor: [A-Za-z0-9_]. -/
def isWordChar (c : Char) : Bool := c.isAlphanum || c == '_'

/-- Character class matched by the regex dot: any character except the
    ECMAScript line terminators LF, CR, U+2028, U+2029. -/
def isDotChar (c : Char) : Bool :=
  !(c == '\n' || c == '\r' || c == Char.ofNat 0x2028 || c == Char.ofNat 0x2029)

/-- Maximal-munch split of a leading run of decimal digits, mirroring how a
    greedy digit quantifier followed by a non-digit literal consumes input:
    the shorter splits would leave a digit where the literal must match, so
    the maximal run is the only candidate and no backtracking is needed. -/
def digitSpan : List Char → List Char × List Char
  | [] => ([], [])
  | c :: rest =>
    if c.isDigit then
      let r := digitSpan rest
      (c :: r.1, r.2)
    else ([], c :: rest)

/-- Matches the regex suffix of the file-name pattern (the dtype group, one or
    more dot-matchable characters, followed by the literal .raw) at the head of
    the input, returning the dtype group. The greedy dtype group prefers
    consuming the current character into the group (the recursive call) and
    only ends the group here when no longer alternative matches, exactly the
    backtracking preference order of the C++ regex engine. The text after the
    literal .raw is unconstrained, as std::sregex_iterator searches
    unanchored. -/
def matchTail : List Char → Option (List Char)
  | [] => none
  | c :: rest =>
    if isDotChar c then
      match matchTail rest with
      | some t => some (c :: t)
      | none => if rest.take 4 = str (".raw") then some (c :: []) else none
    else none

/-- Matches the middle of the file-name pattern, three digit groups separated
    by the literal x and followed by an underscore, then hands over to
    matchTail. Returns the three digit groups and the dtype group. -/
def matchNums (s : List Char) : Option (List Char × List Char × List Char × List Char) :=
  match digitSpan s with
  | (d1, 'x' :: r2) =>
    if d1 = [] then none
    else
      match digitSpan r2 with
      | (d2, 'x' :: r4) =>
        if d2 = [] then none
        else
          match digitSpan r4 with
          | (d3, '_' :: r6) =>
            if d3 = [] then none
            else (matchTail r6).map (fun t => (d1, d2, d3, t))
          | _ => none
      | _ => none
  | _ => none

/-- Matches the whole file-name pattern with the leading word group starting
    exactly at the head of the input. The greedy word group prefers the longer
    extension (the recursive call); only when no longer group can complete a
    match does it end the group after the current character and require the
    underscore separator, mirroring regex backtracking order. The word group's
    text is dropped, as the loader only uses groups 2 to 5. -/
def matchG1 : List Char → Option (List Char × List Char × List Char × List Char)
  | [] => none
  | c :: rest =>
    if isWordChar c then
      match matchG1 rest with
      | some r => some r
      | none =>
        match rest with
        | '_' :: r2 => matchNums r2
        | _ => none
    else none

/-- Embedding of the std::sregex_iterator search in read_raw_volume for the
    pattern (\w+)_(\d+)x(\d+)x(\d+)_(.+)\.raw: the match may start anywhere in
    the file name (the search is unanchored), and the leftmost start position
    admitting a match wins. Returns the captured X, Y, Z digit substrings and
    the dtype substring of that match. -/
def regex_search_filename : List Char → Option (List Char × List Char × List Char × List Char)
  | [] => none
  | c :: rest =>
    match matchG1 (c :: rest) with
    | some r => some r
    | none => regex_search_filename rest

/-- Decimal value of a digit string, as recovered by std::stoi on a captured
    digit group. (std::stoi raises out_of_range for values beyond 2^31 - 1,
    aborting the program; theorems that need it restrict to the in-range
    case.) -/
def digitsVal (ds : List Char) : Nat :=
  ds.foldl (fun acc c => 10 * acc + (c.toNat - 48)) 0

/-- The text of one occurrence of the file-name pattern, assembled from its
    five capture groups. -/
def rawNamePattern (w d1 d2 d3 t : List Char) : List Char :=
  w ++ ('_' :: []) ++ d1 ++ ('x' :: []) ++ d2 ++ ('x' :: []) ++ d3 ++ ('_' :: []) ++ t ++
    str (".raw")

/-- Well-formedness of the five capture groups of the file-name pattern: a
    nonempty word-character name, three nonempty digit groups, and a nonempty
    dtype token of dot-matchable characters. -/
def GoodGroups (w d1 d2 d3 t : List Char) : Prop :=
  w ≠ [] ∧ (∀ c ∈ w, isWordChar c = true) ∧
  d1 ≠ [] ∧ (∀ c ∈ d1, c.isDigit = true) ∧
  d2 ≠ [] ∧ (∀ c ∈ d2, c.isDigit = true) ∧
  d3 ≠ [] ∧ (∀ c ∈ d3, c.isDigit = true) ∧
  t ≠ [] ∧ (∀ c ∈ t, isDotChar c = true)

/-- A file name contains an occurrence of the pattern somewhere inside it
    (what an unanchored regex search can find). -/
def containsRawMatch (s : List Char) : Prop :=
  ∃ pre w d1 d2 d3 t post,
    GoodGroups w d1 d2 d3 t ∧ s = pre ++ rawNamePattern w d1 d2 d3 t ++ post

/-- Modelled from the spec's words for the claim as stated (spec section 4.1):
    the WHOLE file name matches name_XxYxZ_dtype.raw, with a word-character
    name, X, Y, Z positive decimal integers, and a nonempty dtype token before
    the .raw suffix. -/
def matchesNamingConvention (s : List Char) : Prop :=
  ∃ w d1 d2 d3 t,
    w ≠ [] ∧ (∀ c ∈ w, isWordChar c = true) ∧
    d1 ≠ [] ∧ (∀ c ∈ d1, c.isDigit = true) ∧ 0 < digitsVal d1 ∧
    d2 ≠ [] ∧ (∀ c ∈ d2, c.isDigit = true) ∧ 0 < digitsVal d2 ∧
    d3 ≠ [] ∧ (∀ c ∈ d3, c.isDigit = true) ∧ 0 < digitsVal d3 ∧
    t ≠ [] ∧ s = rawNamePattern w d1 d2 d3 t

/-- Exact rational value denoted by a 32-bit IEEE-754 binary32 pattern, used
    to model the reinterpretation of raw bytes as floats. Infinities and NaNs
    (exponent field 255) have no rational value and are mapped to 0; no claim
    inspects them. -/
def float32OfBits (w : Nat) : ℚ :=
  let s : Nat := w / 2 ^ 31 % 2
  let e : Nat := w / 2 ^ 23 % 2 ^ 8
  let m : Nat := w % 2 ^ 23
  let sign : ℚ := if s = 1 then -1 else 1
  if e = 0 then sign * (m : ℚ) / 2 ^ 149
  else if e = 255 then 0
  else sign * ((2 ^ 23 + m : Nat) : ℚ) * 2 ^ e / 2 ^ 150

/-- The voxel_size assignment in read_raw_volume: byte width of a recognized
    dtype token, and 0 for any other token (the variable keeps its
    initialization). -/
def voxel_size_of (volume_type : List Char) : Nat :=
  if volume_type = str ("uint8") then 1
  else if volume_type = str ("uint16") then 2
  else if volume_type = str ("float32") then 4
  else 0

/-- Byte at offset i of a zero-initialized buffer after an ifstream read of at
    most readLen bytes from the file: file bytes are copied while both the
    request and the file last, everything else keeps the initialized 0 (both
    the uint8 staging buffer and the float grid are zero-initialized, and a
    zero 32-bit pattern is the float 0.0). -/
def bufByte (file : List Nat) (readLen i : Nat) : Nat :=
  if i < readLen then file.getD i 0 else 0

/-- Observable result of read_raw_volume: the parsed dims, the float grid, and
    the byte count the single ifstream read call requested, recording the size
    argument passed to fin.read. -/
structure RawVolume where
  dims : Nat × Nat × Nat
  data : List ℚ
  bytesRequested : Nat
deriving DecidableEq

/-- Embedding of read_raw_volume. Fails (returns none, before any file access)
    exactly when the regex search fails; otherwise parses dims with std::stoi
    (digitsVal; names whose dimension fields reach 2^31 would abort the real
    program and are outside every claim's inputs), sizes the grid at
    dims.x*dims.y*dims.z voxels, and fills it from the file:
    - uint8: one staging byte per voxel, widened by value;
    - uint16: two staging bytes per voxel, widened by value (little-endian);
    - float32: the read is issued directly into the float buffer with size
      argument data.size() - the vector's ELEMENT count, not its byte count,
      exactly as the source passes it - and each voxel is the float denoted by
      its four buffer bytes;
    - any other token: voxel_size 0, a zero-length staging read, and the grid
      keeps its initialized zeros, with the function still succeeding. -/
def read_raw_volume (raw_file_name : List Char) (file : List Nat) : Option RawVolume :=
  match regex_search_filename raw_file_name with
  | none => none
  | some (d1, d2, d3, volume_type) =>
    let num_voxels := digitsVal d1 * digitsVal d2 * digitsVal d3
    let voxel_size := voxel_size_of volume_type
    if volume_type ≠ str ("float32") then
      let readLen := num_voxels * voxel_size
      let data : List ℚ :=
        if volume_type = str ("uint8") then
          (List.range num_voxels).map (fun i => ((bufByte file readLen i : Nat) : ℚ))
        else if volume_type = str ("uint16") then
          (List.range num_voxels).map (fun i =>
            ((bufByte file readLen (2 * i) + 256 * bufByte file readLen (2 * i + 1) : Nat) : ℚ))
        else
          List.replicate num_voxels 0
      some { dims := (digitsVal d1, digitsVal d2, digitsVal d3), data := data,
             bytesRequested := readLen }
    else
      let readLen := num_voxels
      some { dims := (digitsVal d1, digitsVal d2, digitsVal d3),
             data := (List.range num_voxels).map (fun i =>
               float32OfBits (bufByte file readLen (4 * i) +
                 256 * bufByte file readLen (4 * i + 1) +
                 65536 * bufByte file readLen (4 * i + 2) +
                 16777216 * bufByte file readLen (4 * i + 3))),
             bytesRequested := readLen }

/-- Grid built by the generator triple loops: the loops run z outer, y middle,
    x inner and write data[x + X*(y + Y*z)] = f x y z over a zero-resized
    buffer of X*Y*Z elements, so they visit linear indices 0,1,...,X*Y*Z-1 in
    order and the element at linear index i is f (i % X) (i / X % Y)
    (i / (X*Y)). -/
def mkGrid (X Y Z : Nat) (f : Nat → Nat → Nat → ℝ) : List ℝ :=
  (List.range (X * Y * Z)).map (fun i => f (i % X) (i / X % Y) (i / (X * Y)))

/-- glm::length of a 3-vector: the Euclidean norm. -/
noncomputable def norm3 (a b c : ℝ) : ℝ := Real.sqrt (a ^ 2 + b ^ 2 + c ^ 2)

/-- Embedding of generate_volume: dispatch on the generator name, producing
    the corresponding field over the grid, or failing (none) for an
    unrecognized name. Field values are modelled over the exact reals the
    source's float expressions denote. -/
noncomputable def generate_volume (gen_mode_name : List Char) (gen_dims : Nat × Nat × Nat) :
    Option (List ℝ) :=
  let X := gen_dims.1
  let Y := gen_dims.2.1
  let Z := gen_dims.2.2
  if gen_mode_name = str ("plane_x") then
    some (mkGrid X Y Z (fun x _ _ => (x : ℝ) / (X : ℝ)))
  else if gen_mode_name = str ("quarter_sphere") then
    some (mkGrid X Y Z (fun x y z => norm3 x y z / norm3 X Y Z))
  else if gen_mode_name = str ("sphere") then
    some (mkGrid X Y Z (fun x y z =>
      norm3 ((x : ℝ) - (X : ℝ) / 2) ((y : ℝ) - (Y : ℝ) / 2) ((z : ℝ) - (Z : ℝ) / 2) /
        ((X : ℝ) / 2)))
  else if gen_mode_name = str ("wavelet") then
    some (mkGrid X Y Z (fun x y z =>
      let cM : ℝ := 1
      let cG : ℝ := 1
      let cXM : ℝ := 1
      let cYM : ℝ := 1
      let cZM : ℝ := 1
      let cXF : ℝ := 3
      let cYF : ℝ := 3
      let cZF : ℝ := 3
      let cx : ℝ := 2 * ((x : ℝ) / (X : ℝ)) - 1
      let cy : ℝ := 2 * ((y : ℝ) / (Y : ℝ)) - 1
      let cz : ℝ := 2 * ((z : ℝ) / (Z : ℝ)) - 1
      cM * cG * (cXM * Real.sin (cXF * cx) + cYM * Real.sin (cYF * cy) +
        cZM * Real.cos (cZF * cz))))
  else none

/-- Model of std::stoi: optional sign, then a maximal run of digits (leading
    whitespace skipping is omitted; no claim input uses it); none models the
    exception thrown when there is no digit or the value does not fit in a
    32-bit int, which terminates the program. -/
def stoiInt (s : List Char) : Option Int :=
  let p : Bool × List Char :=
    match s with
    | '-' :: r => (true, r)
    | '+' :: r => (false, r)
    | r => (false, r)
  let ds := (digitSpan p.2).1
  if ds = [] then none
  else
    let v : Int := if p.1 then -(digitsVal ds : Int) else (digitsVal ds : Int)
    if v < -(2 ^ 31) ∨ v > 2 ^ 31 - 1 then none else some v

/-- Model of std::stoul followed by assignment to a 32-bit unsigned glm
    component: optional sign (a minus wraps modulo 2^64), maximal digit run,
    out_of_range (none) when the digit value exceeds 2^64 - 1, then reduction
    modulo 2^32 at the uint assignment. -/
def stoulU32 (s : List Char) : Option Nat :=
  let p : Bool × List Char :=
    match s with
    | '-' :: r => (true, r)
    | '+' :: r => (false, r)
    | r => (false, r)
  let ds := (digitSpan p.2).1
  if ds = [] then none
  else if digitsVal ds ≥ 2 ^ 64 then none
  else
    let v := if p.1 then (2 ^ 64 - digitsVal ds % 2 ^ 64) % 2 ^ 64 else digitsVal ds
    some (v % 2 ^ 32)

/-- The mutable locals of main's argument loop, with their initializers. -/
structure ArgState where
  raw_volume_mode : Bool := false
  gen_volume_mode : Bool := false
  compression_rate : Int := -1
  raw_file_name : List Char := []
  gen_mode_name : List Char := []
  gen_dims : Nat × Nat × Nat := (0, 0, 0)

/-- Outcome of main's argument loop: a final state, an early exit-1 return for
    an unrecognized argument, or a crash (reading args[++i] past the end is
    out-of-bounds, and a failed std::stoi/stoul throws out of main). -/
inductive ArgParseResult where
  | ok (st : ArgState)
  | exitErr
  | crash

/-- Embedding of main's argument loop. Each recognized flag consumes the
    following argument(s) as its value(s); later occurrences overwrite earlier
    ones; the first unrecognized argument returns exit code 1. -/
def parseLoop : List (List Char) → ArgState → ArgParseResult
  | [], st => ArgParseResult.ok st
  | a :: rest, st =>
    if a = str ("-crate") then
      match rest with
      | v :: rest2 =>
        match stoiInt v with
        | some n => parseLoop rest2 { st with compression_rate := n }
        | none => ArgParseResult.crash
      | [] => ArgParseResult.crash
    else if a = str ("-raw") then
      match rest with
      | v :: rest2 => parseLoop rest2 { st with raw_volume_mode := true, raw_file_name := v }
      | [] => ArgParseResult.crash
    else if a = str ("-gen") then
      match rest with
      | v :: rest2 => parseLoop rest2 { st with gen_volume_mode := true, gen_mode_name := v }
      | [] => ArgParseResult.crash
    else if a = str ("-dims") then
      match rest with
      | x :: y :: z :: rest2 =>
        match stoulU32 x, stoulU32 y, stoulU32 z with
        | some nx, some ny, some nz => parseLoop rest2 { st with gen_dims := (nx, ny, nz) }
        | _, _, _ => ArgParseResult.crash
      | _ => ArgParseResult.crash
    else ArgParseResult.exitErr

/-- Decimal rendering of a natural number (std::to_string), via a fuel-bounded
    digit loop; fuel n + 1 always suffices since a number has at most n + 1
    digits. -/
def natDecimalCore : Nat → Nat → List Char → List Char
  | 0, _, acc => acc
  | fuel + 1, n, acc =>
    let d := Char.ofNat (48 + n % 10)
    if n < 10 then d :: acc else natDecimalCore fuel (n / 10) (d :: acc)

/-- Decimal rendering of a natural number as a character list. -/
def natDecimal (n : Nat) : List Char := natDecimalCore (n + 1) n []

/-- Decimal rendering of an integer (std::to_string on int). -/
def intDecimal (i : Int) : List Char :=
  if i < 0 then '-' :: natDecimal i.natAbs else natDecimal i.toNat

/-- C-style cast from the achieved-rate float to int: truncation toward 0.
    Written with the executable Rat.floor and Rat.ceil, which agree with the
    mathematical floor and ceiling on ℚ. -/
def ratTruncToInt (q : ℚ) : Int := if 0 ≤ q then Rat.floor q else Rat.ceil q

/-- Observables of one pipeline run: the process exit code, the integer rate
    argument passed to zfp_stream_set_rate if the call is reached, whether
    zfp_compress runs, and the name of the output file if one is created. -/
structure MainOutcome where
  exitCode : Nat
  rateSent : Option Int
  compressInvoked : Bool
  fileWritten : Option (List Char)
deriving DecidableEq

/-- Outcome of the early returns that print usage or an error and exit: no
    codec call, no compression, no output file. -/
def usageExit (c : Nat) : MainOutcome :=
  { exitCode := c, rateSent := none, compressInvoked := false, fileWritten := none }

/-- Tail of main after a volume is acquired: configure the codec at the parsed
    rate (the codec's achieved-rate response is the oracle setRate), exit 1
    before compression and before any file when std::floor of the achieved
    rate differs from it, else compress and write the single output file whose
    name appends .crate(int)achieved.zfp to the volume name. -/
def compressionStage (crate : Int) (out_name : List Char) (setRate : Int → ℚ) : MainOutcome :=
  let used := setRate crate
  if ((Rat.floor used : ℤ) : ℚ) ≠ used then
    { exitCode := 1, rateSent := some crate, compressInvoked := false, fileWritten := none }
  else
    { exitCode := 0, rateSent := some crate, compressInvoked := true,
      fileWritten := some (out_name ++ str (".crate") ++ intDecimal (ratTruncToInt used) ++
        str (".zfp")) }

/-- Output name composed for a generated volume. -/
def genOutName (name : List Char) (d : Nat × Nat × Nat) : List Char :=
  name ++ str ("_") ++ natDecimal d.1 ++ str ("x") ++ natDecimal d.2.1 ++ str ("x") ++
    natDecimal d.2.2 ++ str ("_float32.gen")

/-- The volume-acquisition stage of main, after the mode checks have passed:
    load the raw volume (failing to exit 1 on a bad name) or generate one
    (failing to exit 1 on an unknown generator name), then hand the parsed
    rate and output name to compressionStage. -/
noncomputable def acquireStage (st : ArgState) (fs : List Char → List Nat)
    (setRate : Int → ℚ) : Option MainOutcome :=
  if st.raw_volume_mode then
    match read_raw_volume st.raw_file_name (fs st.raw_file_name) with
    | none => some (usageExit 1)
    | some _ => some (compressionStage st.compression_rate st.raw_file_name setRate)
  else
    match generate_volume st.gen_mode_name st.gen_dims with
    | none => some (usageExit 1)
    | some _ =>
      some (compressionStage st.compression_rate (genOutName st.gen_mode_name st.gen_dims)
        setRate)

/-- Embedding of main: -h anywhere prints usage and exits 0; otherwise the
    argument loop runs, the mode checks reject none-or-both modes and missing
    generator dims, the volume is loaded (from the file system oracle fs) or
    generated, and compressionStage finishes the run. none models the crashes
    of parseLoop. The compressed payload itself is codec-internal and not
    observed. -/
noncomputable def runMain (args : List (List Char)) (fs : List Char → List Nat)
    (setRate : Int → ℚ) : Option MainOutcome :=
  if str ("-h") ∈ args then some (usageExit 0)
  else
    match parseLoop args {} with
    | ArgParseResult.crash => none
    | ArgParseResult.exitErr => some (usageExit 1)
    | ArgParseResult.ok st =>
      if !st.raw_volume_mode && !st.gen_volume_mode then some (usageExit 1)
      else if st.raw_volume_mode && st.gen_volume_mode then some (usageExit 1)
      else if st.gen_volume_mode && decide (st.gen_dims = (0, 0, 0)) then some (usageExit 1)
      else acquireStage st fs setRate

/- ------------------------------------------------------------------ -/
/- Helper lemmas                                                       -/
/- ------------------------------------------------------------------ -/

theorem int_floor_eq_rat_floor (q : ℚ) : ⌊q⌋ = Rat.floor q := by
  rw [Rat.floor_def, Rat.floor_def']

theorem getD_map_range {α : Type} (f : Nat → α) (n i : Nat) (d : α) :
    ((List.range n).map f).getD i d = if i < n then f i else d := by
  by_cases hi : i < n
  · rw [List.getD_eq_getElem _ _ (by simpa using hi)]
    simp [hi]
  · rw [List.getD_eq_default _ _ (by simpa using Nat.le_of_not_lt hi)]
    simp [hi]

theorem getD_replicate {α : Type} (n i : Nat) (x d : α) :
    (List.replicate n x).getD i d = if i < n then x else d := by
  by_cases hi : i < n
  · rw [List.getD_eq_getElem _ _ (by simpa using hi)]
    simp [hi]
  · rw [List.getD_eq_default _ _ (by simpa using Nat.le_of_not_lt hi)]
    simp [hi]

theorem bufByte_zero (file : List Nat) (readLen pos : Nat)
    (h : min readLen file.length ≤ pos) : bufByte file readLen pos = 0 := by
  unfold bufByte
  split
  · exact List.getD_eq_default _ _ (by omega)
  · rfl

theorem bufByte_in (file : List Nat) (readLen pos : Nat) (h : pos < readLen) :
    bufByte file readLen pos = file.getD pos 0 := by
  unfold bufByte
  rw [if_pos h]

theorem float32OfBits_zero : float32OfBits 0 = 0 := by
  norm_num [float32OfBits]

theorem compressionStage_rateSent (crate : Int) (out_name : List Char) (setRate : Int → ℚ) :
    (compressionStage crate out_name setRate).rateSent = some crate := by
  simp only [compressionStage]
  split <;> rfl

theorem mkGrid_length (X Y Z : Nat) (f : Nat → Nat → Nat → ℝ) :
    (mkGrid X Y Z f).length = X * Y * Z := by
  simp [mkGrid]

theorem linIndex_lt (X Y Z vx vy vz : Nat) (hvx : vx < X) (hvy : vy < Y) (hvz : vz < Z) :
    vx + X * (vy + Y * vz) < X * Y * Z := by
  have h2 : 1 + (vy + Y * vz) ≤ Y * Z := by
    calc 1 + (vy + Y * vz) = (vy + 1) + Y * vz := by ring
    _ ≤ Y + Y * vz := Nat.add_le_add_right hvy _
    _ = Y * (1 + vz) := by ring
    _ ≤ Y * Z := Nat.mul_le_mul (Nat.le_refl Y) (by omega)
  calc vx + X * (vy + Y * vz) < X + X * (vy + Y * vz) := Nat.add_lt_add_right hvx _
  _ = X * (1 + (vy + Y * vz)) := by ring
  _ ≤ X * (Y * Z) := Nat.mul_le_mul (Nat.le_refl X) h2
  _ = X * Y * Z := by ring

theorem mkGrid_voxel (X Y Z : Nat) (f : Nat → Nat → Nat → ℝ) (vx vy vz : Nat)
    (hvx : vx < X) (hvy : vy < Y) (hvz : vz < Z) :
    (mkGrid X Y Z f).getD (vx + X * (vy + Y * vz)) 0 = f vx vy vz := by
  have hX : 0 < X := Nat.zero_lt_of_lt hvx
  have hY : 0 < Y := Nat.zero_lt_of_lt hvy
  have e2 : (vx + X * (vy + Y * vz)) / X = vy + Y * vz := by
    rw [Nat.add_mul_div_left _ _ hX, Nat.div_eq_of_lt hvx, Nat.zero_add]
  have e1 : (vx + X * (vy + Y * vz)) % X = vx := by
    rw [Nat.add_mul_mod_self_left, Nat.mod_eq_of_lt hvx]
  have e3 : (vx + X * (vy + Y * vz)) / X % Y = vy := by
    rw [e2, Nat.add_mul_mod_self_left, Nat.mod_eq_of_lt hvy]
  have e4 : (vx + X * (vy + Y * vz)) / (X * Y) = vz := by
    rw [← Nat.div_div_eq_div_mul, e2, Nat.add_mul_div_left _ _ hY, Nat.div_eq_of_lt hvy,
      Nat.zero_add]
  rw [mkGrid, getD_map_range, if_pos (linIndex_lt X Y Z vx vy vz hvx hvy hvz), e1, e3, e4]

/- ------------------------------------------------------------------ -/
/- Soundness and completeness of the file-name matcher                 -/
/- ------------------------------------------------------------------ -/

theorem digitSpan_append_eq (s : List Char) : (digitSpan s).1 ++ (digitSpan s).2 = s := by
  induction s with
  | nil => rfl
  | cons c rest ih =>
    simp only [digitSpan]
    split
    · simpa using ih
    · simp

theorem digitSpan_digits (s : List Char) : ∀ c ∈ (digitSpan s).1, c.isDigit = true := by
  induction s with
  | nil => simp [digitSpan]
  | cons c rest ih =>
    simp only [digitSpan]
    split
    · rename_i hc
      intro x hx
      rcases List.mem_cons.mp hx with rfl | hx2
      · exact hc
      · exact ih x hx2
    · simp

theorem digitSpan_of_append (l1 : List Char) (c : Char) (l2 : List Char)
    (h1 : ∀ x ∈ l1, x.isDigit = true) (hc : c.isDigit = false) :
    digitSpan (l1 ++ c :: l2) = (l1, c :: l2) := by
  induction l1 with
  | nil => simp [digitSpan, hc]
  | cons a rest ih =>
    have ha : a.isDigit = true := h1 a (by simp)
    simp [digitSpan, ha, ih (fun x hx => h1 x (List.mem_cons_of_mem a hx))]

theorem matchTail_sound (s : List Char) (t : List Char) (h : matchTail s = some t) :
    t ≠ [] ∧ (∀ c ∈ t, isDotChar c = true) ∧ ∃ post, s = t ++ str (".raw") ++ post := by
  induction s generalizing t with
  | nil => simp [matchTail] at h
  | cons c rest ih =>
    simp only [matchTail] at h
    split at h
    · rename_i hc
      split at h
      · rename_i t0 hm
        injection h with h
        subst h
        obtain ⟨hne, hdot, post, hpost⟩ := ih t0 hm
        refine ⟨by simp, ?_, post, ?_⟩
        · intro x hx
          rcases List.mem_cons.mp hx with rfl | hx2
          · exact hc
          · exact hdot x hx2
        · rw [List.cons_append, List.cons_append, hpost]
      · rename_i hm
        split at h
        · rename_i htake
          injection h with h
          subst h
          have hr : rest = str (".raw") ++ rest.drop 4 := by
            conv_lhs => rw [← List.take_append_drop 4 rest]
            rw [htake]
          refine ⟨by simp, ?_, rest.drop 4, ?_⟩
          · intro x hx
            rcases List.mem_cons.mp hx with rfl | hx2
            · exact hc
            · simp at hx2
          · conv_lhs => rw [hr]
            simp
        · exact absurd h (by simp)
    · exact absurd h (by simp)

theorem matchTail_complete (t post : List Char) (ht : t ≠ [])
    (hdot : ∀ c ∈ t, isDotChar c = true) :
    (matchTail (t ++ str (".raw") ++ post)).isSome = true := by
  induction t with
  | nil => exact absurd rfl ht
  | cons c t2 ih =>
    have hc : isDotChar c = true := hdot c (by simp)
    show (matchTail (c :: (t2 ++ str (".raw") ++ post))).isSome = true
    simp only [matchTail, hc, if_true]
    cases hm : matchTail (t2 ++ str (".raw") ++ post) with
    | some t0 => simp
    | none =>
      cases t2 with
      | nil =>
        have htake : List.take 4 (str (".raw") ++ post) = str (".raw") := rfl
        simp [htake]
      | cons c2 t3 =>
        have h2 := ih (by simp) (fun x hx => hdot x (List.mem_cons_of_mem c hx))
        rw [hm] at h2
        simp at h2

theorem matchNums_sound (s : List Char) (d1 d2 d3 t : List Char)
    (h : matchNums s = some (d1, d2, d3, t)) :
    d1 ≠ [] ∧ (∀ c ∈ d1, c.isDigit = true) ∧
    d2 ≠ [] ∧ (∀ c ∈ d2, c.isDigit = true) ∧
    d3 ≠ [] ∧ (∀ c ∈ d3, c.isDigit = true) ∧
    t ≠ [] ∧ (∀ c ∈ t, isDotChar c = true) ∧
    ∃ post,
      s = d1 ++ ('x' :: []) ++ d2 ++ ('x' :: []) ++ d3 ++ ('_' :: []) ++ t ++
        str (".raw") ++ post := by
  simp only [matchNums] at h
  split at h
  · rename_i ds1 r2 hds1
    split at h
    · exact absurd h (by simp)
    · rename_i hne1
      split at h
      · rename_i ds2 r4 hds2
        split at h
        · exact absurd h (by simp)
        · rename_i hne2
          split at h
          · rename_i ds3 r6 hds3
            split at h
            · exact absurd h (by simp)
            · rename_i hne3
              obtain ⟨t0, hmt, heq⟩ := Option.map_eq_some'.mp h
              obtain ⟨e1, e2, e3, e4⟩ : ds1 = d1 ∧ ds2 = d2 ∧ ds3 = d3 ∧ t0 = t := by
                simpa using heq
              rw [e1] at hds1 hne1
              rw [e2] at hds2 hne2
              rw [e3] at hds3 hne3
              rw [e4] at hmt
              obtain ⟨htne, hdot, post, hpost⟩ := matchTail_sound r6 t hmt
              have hs1 : d1 ++ 'x' :: r2 = s := by
                have := digitSpan_append_eq s
                rw [hds1] at this
                simpa using this
              have hs2 : d2 ++ 'x' :: r4 = r2 := by
                have := digitSpan_append_eq r2
                rw [hds2] at this
                simpa using this
              have hs3 : d3 ++ '_' :: r6 = r4 := by
                have := digitSpan_append_eq r4
                rw [hds3] at this
                simpa using this
              have hd1 : ∀ c ∈ d1, c.isDigit = true := by
                have := digitSpan_digits s
                rw [hds1] at this
                simpa using this
              have hd2 : ∀ c ∈ d2, c.isDigit = true := by
                have := digitSpan_digits r2
                rw [hds2] at this
                simpa using this
              have hd3 : ∀ c ∈ d3, c.isDigit = true := by
                have := digitSpan_digits r4
                rw [hds3] at this
                simpa using this
              refine ⟨hne1, hd1, hne2, hd2, hne3, hd3, htne, hdot, post, ?_⟩
              rw [← hs1, ← hs2, ← hs3, hpost]
              simp
          · exact absurd h (by simp)
      · exact absurd h (by simp)
  · exact absurd h (by simp)

theorem matchNums_complete (d1 d2 d3 t post : List Char)
    (hne1 : d1 ≠ []) (hd1 : ∀ c ∈ d1, c.isDigit = true)
    (hne2 : d2 ≠ []) (hd2 : ∀ c ∈ d2, c.isDigit = true)
    (hne3 : d3 ≠ []) (hd3 : ∀ c ∈ d3, c.isDigit = true)
    (ht : t ≠ []) (hdot : ∀ c ∈ t, isDotChar c = true) :
    (matchNums (d1 ++ 'x' :: (d2 ++ 'x' :: (d3 ++ '_' :: (t ++ str (".raw") ++ post))))).isSome =
      true := by
  have e1 := digitSpan_of_append d1 'x' (d2 ++ 'x' :: (d3 ++ '_' :: (t ++ str (".raw") ++ post)))
    hd1 (by decide)
  have e2 := digitSpan_of_append d2 'x' (d3 ++ '_' :: (t ++ str (".raw") ++ post)) hd2 (by decide)
  have e3 := digitSpan_of_append d3 '_' (t ++ str (".raw") ++ post) hd3 (by decide)
  simp only [matchNums, e1, e2, e3, if_neg hne1, if_neg hne2, if_neg hne3,
    Option.isSome_map']
  exact matchTail_complete t post ht hdot

theorem matchG1_sound (s : List Char) (r : List Char × List Char × List Char × List Char)
    (h : matchG1 s = some r) :
    ∃ w r2, w ≠ [] ∧ (∀ c ∈ w, isWordChar c = true) ∧ s = w ++ '_' :: r2 ∧
      matchNums r2 = some r := by
  induction s with
  | nil => simp [matchG1] at h
  | cons c rest ih =>
    simp only [matchG1] at h
    split at h
    · rename_i hc
      split at h
      · rename_i r0 hm
        injection h with h
        subst h
        obtain ⟨w, r2, hw, hword, hs, hn⟩ := ih hm
        refine ⟨c :: w, r2, by simp, ?_, by simp [hs], hn⟩
        intro x hx
        rcases List.mem_cons.mp hx with rfl | hx2
        · exact hc
        · exact hword x hx2
      · rename_i hm
        split at h
        · exact ⟨c :: [], _, by simp, by simp [hc], rfl, h⟩
        · exact absurd h (by simp)
    · exact absurd h (by simp)

theorem matchG1_complete (w r2 : List Char) (hw : w ≠ [])
    (hword : ∀ c ∈ w, isWordChar c = true) (hn : (matchNums r2).isSome = true) :
    (matchG1 (w ++ '_' :: r2)).isSome = true := by
  induction w with
  | nil => exact absurd rfl hw
  | cons c w2 ih =>
    have hc : isWordChar c = true := hword c (by simp)
    rw [List.cons_append]
    simp only [matchG1, hc, if_true]
    cases hm : matchG1 (w2 ++ '_' :: r2) with
    | some r => simp
    | none =>
      cases w2 with
      | nil => simpa using hn
      | cons c2 w3 =>
        have := ih (by simp) (fun x hx => hword x (List.mem_cons_of_mem c hx))
        rw [hm] at this
        simp at this

theorem regex_search_sound (s : List Char) (r : List Char × List Char × List Char × List Char)
    (h : regex_search_filename s = some r) :
    ∃ pre rest, s = pre ++ rest ∧ matchG1 rest = some r := by
  induction s with
  | nil => simp [regex_search_filename] at h
  | cons c rest2 ih =>
    simp only [regex_search_filename] at h
    split at h
    · rename_i r0 hm
      injection h with h
      subst h
      exact ⟨[], c :: rest2, by simp, hm⟩
    · obtain ⟨pre, rs, hs, hm⟩ := ih h
      exact ⟨c :: pre, rs, by simp [hs], hm⟩

theorem regex_search_complete (pre rest : List Char) (h : (matchG1 rest).isSome = true) :
    (regex_search_filename (pre ++ rest)).isSome = true := by
  induction pre with
  | nil =>
    cases rest with
    | nil => simp [matchG1] at h
    | cons c rs =>
      rw [List.nil_append]
      simp only [regex_search_filename]
      cases hm : matchG1 (c :: rs) with
      | some r => simp
      | none => rw [hm] at h; simp at h
  | cons p pre2 ih =>
    rw [List.cons_append]
    simp only [regex_search_filename]
    cases hm : matchG1 (p :: (pre2 ++ rest)) with
    | some r => simp
    | none => simpa using ih

/- ------------------------------------------------------------------ -/
/- Claim theorems                                                      -/
/- ------------------------------------------------------------------ -/

/-- C1: the claim says a file name whose dtype token is not uint8, uint16 or
    float32 makes the raw-volume load fail with an UnsupportedEncodingError.
    The code does the opposite: at the failing input foo_2x2x2_int32.raw (with
    a nonempty file) read_raw_volume requests a zero-byte read and returns
    success with the 8-voxel grid still all zero, instead of failing. -/
theorem unsupported_dtype_silently_succeeds :
    read_raw_volume (str ("foo_2x2x2_int32.raw")) [1, 2, 3, 4, 5, 6, 7, 8] =
      some { dims := (2, 2, 2), data := List.replicate 8 0, bytesRequested := 0 } := by
  decide

/-- C2: the claim says the float32 path reads exactly X*Y*Z*4 bytes. The code
    passes data.size() - the vector's element count - as the byte count of the
    read, so for vol_2x2x2_float32.raw (with a 32-byte file available) only 8
    bytes are requested, not 2*2*2*4 = 32. -/
theorem float32_reads_element_count_bytes :
    (read_raw_volume (str ("vol_2x2x2_float32.raw")) (List.replicate 32 65)).map
        (fun rv => rv.bytesRequested) = some 8 ∧ (8 : Nat) ≠ 2 * 2 * 2 * 4 :=
  ⟨by decide, by decide⟩

/-- C4 (counterexample): the claim says every name not matching the whole
    convention name_XxYxZ_dtype.raw (word-character name, positive decimal
    dims) fails. The name !foo_0x2x3_uint8.raw does not match the convention
    (its first character is not a word character, and its first dimension is
    not positive), yet the parser succeeds on it, returning the dims
    substrings 0, 2, 3 and dtype uint8 found by the unanchored search. -/
theorem regex_search_not_anchored :
    ¬ matchesNamingConvention (str ("!foo_0x2x3_uint8.raw")) ∧
    regex_search_filename (str ("!foo_0x2x3_uint8.raw")) =
      some (str ("0"), str ("2"), str ("3"), str ("uint8")) := by
  constructor
  · rintro ⟨w, d1, d2, d3, t, hw, hword, -, -, -, -, -, -, -, -, -, -, heq⟩
    cases w with
    | nil => exact hw rfl
    | cons c w2 =>
      rw [show str ("!foo_0x2x3_uint8.raw") = '!' :: str ("foo_0x2x3_uint8.raw") from rfl,
        show rawNamePattern (c :: w2) d1 d2 d3 t =
          c :: (w2 ++ ('_' :: []) ++ d1 ++ ('x' :: []) ++ d2 ++ ('x' :: []) ++ d3 ++
            ('_' :: []) ++ t ++ str (".raw")) from rfl] at heq
      injection heq with h1 h2
      have hcw := hword c (by simp)
      rw [← h1] at hcw
      exact absurd hcw (by decide)
  · decide

/-- C4 (amended): the parser searches for the pattern unanchored inside the
    file name: every name containing an occurrence of
    word-chars_digitsxdigitsxdigits_token.raw somewhere inside it parses
    successfully (returning the digit and dtype substrings of such an
    occurrence - the leftmost one, with greedy groups); every name containing
    no such occurrence fails, and on failure read_raw_volume returns failure
    without reading any data. In particular every name matching the whole
    convention parses successfully. -/
theorem regex_search_filename_characterization (s : List Char) :
    (containsRawMatch s → (regex_search_filename s).isSome = true) ∧
    (∀ d1 d2 d3 t, regex_search_filename s = some (d1, d2, d3, t) →
      ∃ pre w post, GoodGroups w d1 d2 d3 t ∧
        s = pre ++ rawNamePattern w d1 d2 d3 t ++ post) ∧
    (∀ file, regex_search_filename s = none → read_raw_volume s file = none) := by
  refine ⟨?_, ?_, ?_⟩
  · rintro ⟨pre, w, d1, d2, d3, t, post,
      ⟨hw, hword, hne1, hd1, hne2, hd2, hne3, hd3, ht, hdot⟩, rfl⟩
    have hn := matchNums_complete d1 d2 d3 t post hne1 hd1 hne2 hd2 hne3 hd3 ht hdot
    have hm := matchG1_complete w
      (d1 ++ 'x' :: (d2 ++ 'x' :: (d3 ++ '_' :: (t ++ str (".raw") ++ post)))) hw hword hn
    have hshape : pre ++ rawNamePattern w d1 d2 d3 t ++ post =
        pre ++ (w ++ '_' ::
          (d1 ++ 'x' :: (d2 ++ 'x' :: (d3 ++ '_' :: (t ++ str (".raw") ++ post))))) := by
      simp [rawNamePattern]
    rw [hshape]
    exact regex_search_complete pre _ hm
  · intro d1 d2 d3 t h
    obtain ⟨pre, rest, rfl, hm⟩ := regex_search_sound s _ h
    obtain ⟨w, r2, hw, hword, rfl, hn⟩ := matchG1_sound rest _ hm
    obtain ⟨hne1, hd1, hne2, hd2, hne3, hd3, ht, hdot, post, rfl⟩ :=
      matchNums_sound r2 d1 d2 d3 t hn
    refine ⟨pre, w, post, ⟨hw, hword, hne1, hd1, hne2, hd2, hne3, hd3, ht, hdot⟩, ?_⟩
    simp [rawNamePattern]
  · intro file h
    simp only [read_raw_volume, h]

/-- C4 (witness): the characterization applied at concrete inputs: the
    conventional name magnetic_512x512x512_uint8.raw parses successfully, and
    the non-matching name nomatch.raw fails with no data read. -/
theorem regex_search_filename_characterization_witness :
    (regex_search_filename (str ("magnetic_512x512x512_uint8.raw"))).isSome = true ∧
    read_raw_volume (str ("nomatch.raw")) [1, 2, 3] = none :=
  ⟨(regex_search_filename_characterization (str ("magnetic_512x512x512_uint8.raw"))).1
      ⟨[], str ("magnetic"), str ("512"), str ("512"), str ("512"), str ("uint8"), [],
        ⟨by decide, by decide, by decide, by decide, by decide, by decide, by decide,
          by decide, by decide, by decide⟩, by decide⟩,
    (regex_search_filename_characterization (str ("nomatch.raw"))).2.2 [1, 2, 3] (by decide)⟩

/-- C5: for every raw file shorter than the computed required length
    (voxel count times the dtype byte width), the load still succeeds, and
    every grid element lying entirely beyond the bytes actually read (the
    minimum of the requested byte count and the file length) keeps its
    initialized value 0.0. -/
theorem short_read_tail_zero (name : List Char) (file : List Nat) (d1 d2 d3 ty : List Char)
    (hparse : regex_search_filename name = some (d1, d2, d3, ty))
    (hty : ty = str ("uint8") ∨ ty = str ("uint16") ∨ ty = str ("float32"))
    (hshort : file.length < digitsVal d1 * digitsVal d2 * digitsVal d3 * voxel_size_of ty) :
    ∃ rv, read_raw_volume name file = some rv ∧
      ∀ i, min rv.bytesRequested file.length ≤ voxel_size_of ty * i →
        rv.data.getD i 0 = 0 := by
  rcases hty with h8 | h16 | h32
  · subst h8
    have hv : voxel_size_of (str ("uint8")) = 1 := by decide
    have hval : read_raw_volume name file =
        some { dims := (digitsVal d1, digitsVal d2, digitsVal d3),
               data := (List.range (digitsVal d1 * digitsVal d2 * digitsVal d3)).map
                 (fun i => ((bufByte file (digitsVal d1 * digitsVal d2 * digitsVal d3 * 1)
                   i : Nat) : ℚ)),
               bytesRequested := digitsVal d1 * digitsVal d2 * digitsVal d3 * 1 } := by
      simp only [read_raw_volume, hparse]
      rw [if_pos (show ¬ str ("uint8") = str ("float32") by decide)]
      simp [hv]
    refine ⟨_, hval, ?_⟩
    intro i hcond
    replace hcond : min (digitsVal d1 * digitsVal d2 * digitsVal d3 * 1) file.length ≤
        voxel_size_of (str ("uint8")) * i := hcond
    rw [hv] at hcond
    rw [getD_map_range]
    split
    · rw [bufByte_zero file _ i (by omega)]
      simp
    · rfl
  · subst h16
    have hv : voxel_size_of (str ("uint16")) = 2 := by decide
    have hval : read_raw_volume name file =
        some { dims := (digitsVal d1, digitsVal d2, digitsVal d3),
               data := (List.range (digitsVal d1 * digitsVal d2 * digitsVal d3)).map
                 (fun i => ((bufByte file (digitsVal d1 * digitsVal d2 * digitsVal d3 * 2)
                     (2 * i) +
                   256 * bufByte file (digitsVal d1 * digitsVal d2 * digitsVal d3 * 2)
                     (2 * i + 1) : Nat) : ℚ)),
               bytesRequested := digitsVal d1 * digitsVal d2 * digitsVal d3 * 2 } := by
      simp only [read_raw_volume, hparse]
      rw [if_pos (show ¬ str ("uint16") = str ("float32") by decide),
        if_neg (show ¬ str ("uint16") = str ("uint8") by decide)]
      simp [hv]
    refine ⟨_, hval, ?_⟩
    intro i hcond
    replace hcond : min (digitsVal d1 * digitsVal d2 * digitsVal d3 * 2) file.length ≤
        voxel_size_of (str ("uint16")) * i := hcond
    rw [hv] at hcond
    rw [getD_map_range]
    split
    · rw [bufByte_zero file _ (2 * i) (by omega), bufByte_zero file _ (2 * i + 1) (by omega)]
      simp
    · rfl
  · subst h32
    have hv : voxel_size_of (str ("float32")) = 4 := by decide
    have hval : read_raw_volume name file =
        some { dims := (digitsVal d1, digitsVal d2, digitsVal d3),
               data := (List.range (digitsVal d1 * digitsVal d2 * digitsVal d3)).map
                 (fun i => float32OfBits
                   (bufByte file (digitsVal d1 * digitsVal d2 * digitsVal d3) (4 * i) +
                    256 * bufByte file (digitsVal d1 * digitsVal d2 * digitsVal d3)
                      (4 * i + 1) +
                    65536 * bufByte file (digitsVal d1 * digitsVal d2 * digitsVal d3)
                      (4 * i + 2) +
                    16777216 * bufByte file (digitsVal d1 * digitsVal d2 * digitsVal d3)
                      (4 * i + 3))),
               bytesRequested := digitsVal d1 * digitsVal d2 * digitsVal d3 } := by
      simp [read_raw_volume, hparse]
    refine ⟨_, hval, ?_⟩
    intro i hcond
    replace hcond : min (digitsVal d1 * digitsVal d2 * digitsVal d3) file.length ≤
        voxel_size_of (str ("float32")) * i := hcond
    rw [hv] at hcond
    rw [getD_map_range]
    split
    · rw [bufByte_zero file _ (4 * i) (by omega), bufByte_zero file _ (4 * i + 1) (by omega),
        bufByte_zero file _ (4 * i + 2) (by omega), bufByte_zero file _ (4 * i + 3) (by omega)]
      exact float32OfBits_zero
    · rfl

/-- C5 (witness): loading v_3x1x1_uint8.raw from a 1-byte file (shorter than
    the 3 required bytes) succeeds, and the grid element at index 2, beyond
    the single byte read, is 0. -/
theorem short_read_tail_zero_witness :
    ∃ rv, read_raw_volume (str ("v_3x1x1_uint8.raw")) [7] = some rv ∧
      rv.data.getD 2 0 = 0 ∧ rv.data.getD 0 0 = 7 := by
  obtain ⟨rv, hrv, hz⟩ := short_read_tail_zero (str ("v_3x1x1_uint8.raw")) [7] (str ("3"))
    (str ("1")) (str ("1")) (str ("uint8")) (by decide) (Or.inl rfl) (by decide)
  have hc : read_raw_volume (str ("v_3x1x1_uint8.raw")) [7] =
      some { dims := (3, 1, 1), data := [7, 0, 0], bytesRequested := 3 } := by decide
  rw [hrv] at hc
  injection hc with hc
  refine ⟨rv, hrv, hz 2 ?_, ?_⟩
  · rw [hc]
    decide
  · rw [hc]
    decide

/-- C6: for every raw volume whose parsed dtype is uint8 or uint16, the loaded
    float value at each voxel index i inside the grid equals the exact
    unsigned integer value of the i-th raw element read (the i-th file byte
    for uint8; the little-endian value of file bytes 2i and 2i+1 for uint16),
    with no scaling and no sign interpretation. -/
theorem integer_widening_exact (name : List Char) (file : List Nat) (d1 d2 d3 ty : List Char)
    (hparse : regex_search_filename name = some (d1, d2, d3, ty)) :
    (ty = str ("uint8") →
      ∃ rv, read_raw_volume name file = some rv ∧
        ∀ i, i < digitsVal d1 * digitsVal d2 * digitsVal d3 →
          rv.data.getD i 0 = ((file.getD i 0 : Nat) : ℚ)) ∧
    (ty = str ("uint16") →
      ∃ rv, read_raw_volume name file = some rv ∧
        ∀ i, i < digitsVal d1 * digitsVal d2 * digitsVal d3 →
          rv.data.getD i 0 =
            ((file.getD (2 * i) 0 + 256 * file.getD (2 * i + 1) 0 : Nat) : ℚ)) := by
  constructor
  · intro h8
    subst h8
    have hv : voxel_size_of (str ("uint8")) = 1 := by decide
    have hval : read_raw_volume name file =
        some { dims := (digitsVal d1, digitsVal d2, digitsVal d3),
               data := (List.range (digitsVal d1 * digitsVal d2 * digitsVal d3)).map
                 (fun i => ((bufByte file (digitsVal d1 * digitsVal d2 * digitsVal d3 * 1)
                   i : Nat) : ℚ)),
               bytesRequested := digitsVal d1 * digitsVal d2 * digitsVal d3 * 1 } := by
      simp only [read_raw_volume, hparse]
      rw [if_pos (show ¬ str ("uint8") = str ("float32") by decide)]
      simp [hv]
    refine ⟨_, hval, ?_⟩
    intro i hi
    rw [getD_map_range, if_pos hi, bufByte_in file _ i (by omega)]
  · intro h16
    subst h16
    have hv : voxel_size_of (str ("uint16")) = 2 := by decide
    have hval : read_raw_volume name file =
        some { dims := (digitsVal d1, digitsVal d2, digitsVal d3),
               data := (List.range (digitsVal d1 * digitsVal d2 * digitsVal d3)).map
                 (fun i => ((bufByte file (digitsVal d1 * digitsVal d2 * digitsVal d3 * 2)
                     (2 * i) +
                   256 * bufByte file (digitsVal d1 * digitsVal d2 * digitsVal d3 * 2)
                     (2 * i + 1) : Nat) : ℚ)),
               bytesRequested := digitsVal d1 * digitsVal d2 * digitsVal d3 * 2 } := by
      simp only [read_raw_volume, hparse]
      rw [if_pos (show ¬ str ("uint16") = str ("float32") by decide),
        if_neg (show ¬ str ("uint16") = str ("uint8") by decide)]
      simp [hv]
    refine ⟨_, hval, ?_⟩
    intro i hi
    rw [getD_map_range, if_pos hi, bufByte_in file _ (2 * i) (by omega),
      bufByte_in file _ (2 * i + 1) (by omega)]
/-- C6 (witness): the widening theorem applied at concrete inputs: the file
    byte 0xFF in a uint8 volume loads as the float value 255, and the
    little-endian uint16 element with bytes 1, 1 loads as 257. -/
theorem integer_widening_exact_witness :
    (∃ rv, read_raw_volume (str ("v_2x1x1_uint8.raw")) [255, 3] = some rv ∧
      rv.data.getD 0 0 = 255) ∧
    (∃ rv, read_raw_volume (str ("w_1x1x1_uint16.raw")) [1, 1] = some rv ∧
      rv.data.getD 0 0 = 257) := by
  constructor
  · obtain ⟨rv, hrv, hval⟩ := (integer_widening_exact (str ("v_2x1x1_uint8.raw")) [255, 3]
      (str ("2")) (str ("1")) (str ("1")) (str ("uint8")) (by decide)).1 rfl
    refine ⟨rv, hrv, ?_⟩
    rw [hval 0 (by decide)]
    decide
  · obtain ⟨rv, hrv, hval⟩ := (integer_widening_exact (str ("w_1x1x1_uint16.raw")) [1, 1]
      (str ("1")) (str ("1")) (str ("1")) (str ("uint16")) (by decide)).2 rfl
    refine ⟨rv, hrv, ?_⟩
    rw [hval 0 (by decide)]
    decide

/-- C9: for every grid shape with positive extents, the plane_x generator
    produces a grid of length x*y*z whose voxel (vx,vy,vz), stored at linear
    index vx + x*(vy + y*vz), has value vx / x. -/
theorem plane_x_generator_value (X Y Z vx vy vz : Nat) (hX : 0 < X) (hY : 0 < Y) (hZ : 0 < Z)
    (hvx : vx < X) (hvy : vy < Y) (hvz : vz < Z) :
    ∃ g, generate_volume (str ("plane_x")) (X, Y, Z) = some g ∧ g.length = X * Y * Z ∧
      g.getD (vx + X * (vy + Y * vz)) 0 = (vx : ℝ) / (X : ℝ) := by
  refine ⟨mkGrid X Y Z (fun x _ _ => (x : ℝ) / (X : ℝ)), ?_, mkGrid_length X Y Z _, ?_⟩
  · simp only [generate_volume]
    rw [if_pos trivial]
  · exact mkGrid_voxel X Y Z _ vx vy vz hvx hvy hvz

/-- C9 (witness): for dims (4,1,1) the plane_x output is exactly
    the list 0, 1/4, 1/2, 3/4. -/
theorem plane_x_generator_value_witness :
    ∃ g, generate_volume (str ("plane_x")) (4, 1, 1) = some g ∧
      g = [0, 1 / 4, 1 / 2, 3 / 4] := by
  obtain ⟨g, hg, hlen, hval⟩ := plane_x_generator_value 4 1 1 1 0 0 (by decide) (by decide)
    (by decide) (by decide) (by decide) (by decide)
  refine ⟨g, hg, ?_⟩
  have hg2 : generate_volume (str ("plane_x")) (4, 1, 1) =
      some (mkGrid 4 1 1 (fun x _ _ => (x : ℝ) / ((4 : Nat) : ℝ))) := by
    simp only [generate_volume]
    rw [if_pos trivial]
  rw [hg] at hg2
  injection hg2 with hgg
  rw [hgg, mkGrid]
  norm_num [List.range_succ]

/-- C7: for every grid shape with positive extents, the sphere generator
    stores at linear index vx + x*(vy + y*vz) the value
    norm of ((vx,vy,vz) - (x/2, y/2, z/2)) divided by x/2, the normalization
    using only half the first-axis extent, even for non-cubic grids. -/
theorem sphere_generator_value (X Y Z vx vy vz : Nat) (hX : 0 < X) (hY : 0 < Y) (hZ : 0 < Z)
    (hvx : vx < X) (hvy : vy < Y) (hvz : vz < Z) :
    ∃ g, generate_volume (str ("sphere")) (X, Y, Z) = some g ∧ g.length = X * Y * Z ∧
      g.getD (vx + X * (vy + Y * vz)) 0 =
        norm3 ((vx : ℝ) - (X : ℝ) / 2) ((vy : ℝ) - (Y : ℝ) / 2) ((vz : ℝ) - (Z : ℝ) / 2) /
          ((X : ℝ) / 2) := by
  refine ⟨mkGrid X Y Z (fun x y z =>
    norm3 ((x : ℝ) - (X : ℝ) / 2) ((y : ℝ) - (Y : ℝ) / 2) ((z : ℝ) - (Z : ℝ) / 2) /
      ((X : ℝ) / 2)), ?_, mkGrid_length X Y Z _, ?_⟩
  · simp only [generate_volume]
    rw [if_neg (show ¬ str ("sphere") = str ("plane_x") by decide),
      if_neg (show ¬ str ("sphere") = str ("quarter_sphere") by decide), if_pos trivial]
  · exact mkGrid_voxel X Y Z _ vx vy vz hvx hvy hvz

/-- C7 (witness): for dims (10,10,10), the voxel at the grid center (5,5,5)
    has value 0 and the voxel at (0,5,5) has value 1 (distance 5 over
    half-extent 5). -/
theorem sphere_generator_value_witness :
    ∃ g, generate_volume (str ("sphere")) (10, 10, 10) = some g ∧
      g.getD (5 + 10 * (5 + 10 * 5)) 0 = 0 ∧ g.getD (0 + 10 * (5 + 10 * 5)) 0 = 1 := by
  obtain ⟨g, hg, hlen, hval5⟩ := sphere_generator_value 10 10 10 5 5 5 (by decide) (by decide)
    (by decide) (by decide) (by decide) (by decide)
  obtain ⟨g2, hg2, hlen2, hval0⟩ := sphere_generator_value 10 10 10 0 5 5 (by decide)
    (by decide) (by decide) (by decide) (by decide) (by decide)
  rw [hg] at hg2
  injection hg2 with hgg
  rw [← hgg] at hval0
  refine ⟨g, hg, ?_, ?_⟩
  · rw [hval5]
    norm_num [norm3]
  · rw [hval0]
    rw [norm3]
    push_cast
    rw [show ((0 : ℝ) - 10 / 2) ^ 2 + ((5 : ℝ) - 10 / 2) ^ 2 + ((5 : ℝ) - 10 / 2) ^ 2 =
      5 ^ 2 by norm_num]
    rw [Real.sqrt_sq (by norm_num : (0 : ℝ) ≤ 5)]
    norm_num

/-- C8: for every grid shape with positive extents, the wavelet generator
    stores the value sin(3*cx) + sin(3*cy) + cos(3*cz), with normalized
    coordinates c = 2*(v/dims) - 1 componentwise, all amplitude constants 1,
    all frequency constants 3, sine on the first two axes and cosine on the
    third only. -/
theorem wavelet_generator_value (X Y Z vx vy vz : Nat) (hX : 0 < X) (hY : 0 < Y) (hZ : 0 < Z)
    (hvx : vx < X) (hvy : vy < Y) (hvz : vz < Z) :
    ∃ g, generate_volume (str ("wavelet")) (X, Y, Z) = some g ∧ g.length = X * Y * Z ∧
      g.getD (vx + X * (vy + Y * vz)) 0 =
        Real.sin (3 * (2 * ((vx : ℝ) / (X : ℝ)) - 1)) +
        Real.sin (3 * (2 * ((vy : ℝ) / (Y : ℝ)) - 1)) +
        Real.cos (3 * (2 * ((vz : ℝ) / (Z : ℝ)) - 1)) := by
  refine ⟨mkGrid X Y Z (fun x y z =>
    1 * 1 * (1 * Real.sin (3 * (2 * ((x : ℝ) / (X : ℝ)) - 1)) +
      1 * Real.sin (3 * (2 * ((y : ℝ) / (Y : ℝ)) - 1)) +
      1 * Real.cos (3 * (2 * ((z : ℝ) / (Z : ℝ)) - 1)))), ?_, mkGrid_length X Y Z _, ?_⟩
  · simp only [generate_volume]
    rw [if_neg (show ¬ str ("wavelet") = str ("plane_x") by decide),
      if_neg (show ¬ str ("wavelet") = str ("quarter_sphere") by decide),
      if_neg (show ¬ str ("wavelet") = str ("sphere") by decide), if_pos trivial]
  · rw [mkGrid_voxel X Y Z _ vx vy vz hvx hvy hvz]
    norm_num

/-- C8 (witness): for dims (2,2,2), the voxel at (1,1,1) has normalized
    coordinates (0,0,0) and value sin 0 + sin 0 + cos 0 = 1. -/
theorem wavelet_generator_value_witness :
    ∃ g, generate_volume (str ("wavelet")) (2, 2, 2) = some g ∧
      g.getD (1 + 2 * (1 + 2 * 1)) 0 = 1 := by
  obtain ⟨g, hg, hlen, hval⟩ := wavelet_generator_value 2 2 2 1 1 1 (by decide) (by decide)
    (by decide) (by decide) (by decide) (by decide)
  refine ⟨g, hg, ?_⟩
  rw [hval]
  norm_num

theorem runMain_rateSent (args : List (List Char)) (fs : List Char → List Nat)
    (setRate : Int → ℚ) (o : MainOutcome) (r : Int)
    (h : runMain args fs setRate = some o) (hr : o.rateSent = some r) :
    ∃ nm, o = compressionStage r nm setRate := by
  simp only [runMain] at h
  split at h
  · injection h with h
    rw [← h] at hr
    simp [usageExit] at hr
  · split at h
    · exact absurd h (by simp)
    · injection h with h
      rw [← h] at hr
      simp [usageExit] at hr
    · rename_i st hst
      split at h
      · injection h with h
        rw [← h] at hr
        simp [usageExit] at hr
      · split at h
        · injection h with h
          rw [← h] at hr
          simp [usageExit] at hr
        · split at h
          · injection h with h
            rw [← h] at hr
            simp [usageExit] at hr
          · simp only [acquireStage] at h
            split at h
            · split at h
              · injection h with h
                rw [← h] at hr
                simp [usageExit] at hr
              · injection h with h
                rw [← h] at hr
                rw [compressionStage_rateSent] at hr
                injection hr with hr2
                exact ⟨st.raw_file_name, by rw [← h, ← hr2]⟩
            · split at h
              · injection h with h
                rw [← h] at hr
                simp [usageExit] at hr
              · injection h with h
                rw [← h] at hr
                rw [compressionStage_rateSent] at hr
                injection hr with hr2
                exact ⟨genOutName st.gen_mode_name st.gen_dims, by rw [← h, ← hr2]⟩

/-- C3: in every run that reaches the codec (the rate was sent), if the
    codec's achieved rate is not exactly an integer the pipeline exits with
    status 1 without invoking compression and without creating any output
    file; if the achieved rate is integral it proceeds to compression and
    writes the single output file. -/
theorem rate_validation_gates_compression (args : List (List Char)) (fs : List Char → List Nat)
    (setRate : Int → ℚ) (o : MainOutcome) (r : Int)
    (h : runMain args fs setRate = some o) (hr : o.rateSent = some r) :
    (((⌊setRate r⌋ : ℤ) : ℚ) ≠ setRate r →
      o.exitCode = 1 ∧ o.compressInvoked = false ∧ o.fileWritten = none) ∧
    (((⌊setRate r⌋ : ℤ) : ℚ) = setRate r →
      o.compressInvoked = true ∧ o.exitCode = 0 ∧ o.fileWritten.isSome = true) := by
  obtain ⟨nm, rfl⟩ := runMain_rateSent args fs setRate o r h hr
  rw [int_floor_eq_rat_floor]
  constructor
  · intro hne
    simp only [compressionStage]
    rw [if_pos hne]
    exact ⟨rfl, rfl, rfl⟩
  · intro heq
    simp only [compressionStage]
    rw [if_neg (by simpa using heq)]
    exact ⟨rfl, rfl, rfl⟩

/-- C3 (witness): with a codec oracle answering 17/2 the run aborts with exit
    code 1, no compression and no output file; with the oracle answering 8 the
    same run proceeds to compression. -/
theorem rate_validation_gates_compression_witness :
    (∃ o, runMain [str ("-raw"), str ("v_1x1x1_uint8.raw"), str ("-crate"), str ("8")]
        (fun _ => []) (fun _ => mkRat 17 2) = some o ∧
      o.exitCode = 1 ∧ o.compressInvoked = false ∧ o.fileWritten = none) ∧
    (∃ o, runMain [str ("-raw"), str ("v_1x1x1_uint8.raw"), str ("-crate"), str ("8")]
        (fun _ => []) (fun _ => mkRat 8 1) = some o ∧ o.compressInvoked = true) := by
  constructor
  · have h : runMain [str ("-raw"), str ("v_1x1x1_uint8.raw"), str ("-crate"), str ("8")]
        (fun _ => []) (fun _ => mkRat 17 2) =
        some { exitCode := 1, rateSent := some 8, compressInvoked := false,
               fileWritten := none } := by decide
    have hfl : (((⌊(fun _ : Int => mkRat 17 2) 8⌋ : ℤ) : ℚ) ≠ (fun _ : Int => mkRat 17 2) 8) := by
      rw [int_floor_eq_rat_floor]
      decide
    obtain ⟨h1, h2, h3⟩ :=
      (rate_validation_gates_compression _ _ _ _ 8 h rfl).1 hfl
    exact ⟨_, h, h1, h2, h3⟩
  · have h : runMain [str ("-raw"), str ("v_1x1x1_uint8.raw"), str ("-crate"), str ("8")]
        (fun _ => []) (fun _ => mkRat 8 1) =
        some { exitCode := 0, rateSent := some 8, compressInvoked := true,
               fileWritten := some (str ("v_1x1x1_uint8.raw.crate8.zfp")) } := by decide
    have hfl : (((⌊(fun _ : Int => mkRat 8 1) 8⌋ : ℤ) : ℚ) = (fun _ : Int => mkRat 8 1) 8) := by
      rw [int_floor_eq_rat_floor]
      decide
    obtain ⟨h1, h2, h3⟩ :=
      (rate_validation_gates_compression _ _ _ _ 8 h rfl).2 hfl
    exact ⟨_, h, h1⟩

/-- C10: the program never validates the requested rate itself: whatever
    integer the -crate token parses to (any 32-bit int, in or out of [1,32])
    is forwarded verbatim to the codec's fixed-rate call once a volume is
    loaded, with no usage or range error beforehand; and when -crate is
    omitted the sentinel -1 is forwarded the same way. -/
theorem crate_forwarded_unvalidated (fs : List Char → List Nat) (setRate : Int → ℚ)
    (name tok : List Char) (v : Int)
    (hname : name ≠ str ("-h")) (htok : tok ≠ str ("-h"))
    (hstoi : stoiInt tok = some v)
    (hread : (read_raw_volume name (fs name)).isSome = true) :
    (∃ o, runMain [str ("-raw"), name, str ("-crate"), tok] fs setRate = some o ∧
      o.rateSent = some v) ∧
    (∃ o, runMain [str ("-raw"), name] fs setRate = some o ∧ o.rateSent = some (-1)) := by
  obtain ⟨rv, hrv⟩ := Option.isSome_iff_exists.mp hread
  constructor
  · have hmem : ¬ str ("-h") ∈ [str ("-raw"), name, str ("-crate"), tok] := by
      simp only [List.mem_cons, List.not_mem_nil, or_false]
      push_neg
      refine ⟨by decide, ?_, by decide, ?_⟩
      · intro he
        exact hname he.symm
      · intro he
        exact htok he.symm
    have hloop : parseLoop [str ("-raw"), name, str ("-crate"), tok] {} =
        ArgParseResult.ok
          { raw_volume_mode := true, gen_volume_mode := false, compression_rate := v,
            raw_file_name := name, gen_mode_name := [], gen_dims := (0, 0, 0) } := by
      rw [show parseLoop [str ("-raw"), name, str ("-crate"), tok] {} =
          (match stoiInt tok with
           | some n =>
             ArgParseResult.ok
               { raw_volume_mode := true, gen_volume_mode := false, compression_rate := n,
                 raw_file_name := name, gen_mode_name := [], gen_dims := (0, 0, 0) }
           | none => ArgParseResult.crash) from rfl, hstoi]
    refine ⟨compressionStage v name setRate, ?_, compressionStage_rateSent v name setRate⟩
    simp only [runMain]
    rw [if_neg hmem, hloop]
    show acquireStage
      { raw_volume_mode := true, gen_volume_mode := false, compression_rate := v,
        raw_file_name := name, gen_mode_name := [], gen_dims := (0, 0, 0) } fs setRate =
      some (compressionStage v name setRate)
    simp only [acquireStage, hrv, if_true]
  · have hmem2 : ¬ str ("-h") ∈ [str ("-raw"), name] := by
      simp only [List.mem_cons, List.not_mem_nil, or_false]
      push_neg
      refine ⟨by decide, ?_⟩
      intro he
      exact hname he.symm
    have hloop2 : parseLoop [str ("-raw"), name] {} =
        ArgParseResult.ok
          { raw_volume_mode := true, gen_volume_mode := false, compression_rate := -1,
            raw_file_name := name, gen_mode_name := [], gen_dims := (0, 0, 0) } := rfl
    refine ⟨compressionStage (-1) name setRate, ?_, compressionStage_rateSent (-1) name setRate⟩
    simp only [runMain]
    rw [if_neg hmem2, hloop2]
    show acquireStage
      { raw_volume_mode := true, gen_volume_mode := false, compression_rate := -1,
        raw_file_name := name, gen_mode_name := [], gen_dims := (0, 0, 0) } fs setRate =
      some (compressionStage (-1) name setRate)
    simp only [acquireStage, hrv, if_true]

/-- C10 (witness): the forwarding theorem applied at the out-of-range rate
    100: the codec is handed exactly 100, and with -crate omitted it is
    handed the sentinel -1. -/
theorem crate_forwarded_unvalidated_witness :
    stoiInt (str ("100")) = some 100 ∧
    (∃ o, runMain [str ("-raw"), str ("v_1x1x1_uint8.raw"), str ("-crate"), str ("100")]
        (fun _ => [0]) (fun _ => mkRat 1 1) = some o ∧ o.rateSent = some 100) ∧
    (∃ o, runMain [str ("-raw"), str ("v_1x1x1_uint8.raw")] (fun _ => [0])
        (fun _ => mkRat 1 1) = some o ∧ o.rateSent = some (-1)) := by
  have H := crate_forwarded_unvalidated (fun _ => [0]) (fun _ => mkRat 1 1)
    (str ("v_1x1x1_uint8.raw")) (str ("100")) 100 (by decide) (by decide) (by decide)
    (by decide)
  exact ⟨by decide, H.1, H.2⟩

end Zfp
